import Mathlib

set_option maxRecDepth 1000000

/-!
Shallow embedding of the mahjong tile-encoding library (`src/src/lib.rs`):
the tile model (`Suit`, `Wind`, `Dragon`, `ToByte`), the codec
(`Suit::to_string`, `Suit::from_string`) and the lookup tables of the
`lookup` module.  Rust `u8` payloads are modelled as `Nat`; the only
operations performed on them are `&` and `|` on the low bits, so no
wrap-around arithmetic arises.  Strings are modelled as lists of byte
values (`List Nat`), matching the byte-wise processing of the source.
-/

namespace Mahjong

/-- Dragon honours, translated from `enum Dragon` in `src/src/lib.rs`. -/
inductive Dragon where
  | White
  | Red
  | Green
deriving DecidableEq, Repr

/-- Wind honours, translated from `enum Wind` in `src/src/lib.rs`. -/
inductive Wind where
  | South
  | East
  | North
  | West
deriving DecidableEq, Repr

/-- Tile values, translated from `enum Suit` in `src/src/lib.rs`.
The numbered suits carry a `u8` rank, modelled as `Nat`. -/
inductive Suit where
  | Dots (n : Nat)
  | Bamboo (n : Nat)
  | Characters (n : Nat)
  | Wind (w : Wind)
  | Dragon (d : Dragon)
deriving DecidableEq, Repr

/-- The red five marker, translated from `pub const RED_FIVE: u8 = 0xA`. -/
def RED_FIVE : Nat := 0xA

/-- Decoding errors, translated from `enum DecodeErr` in `src/src/lib.rs`. -/
inductive DecodeErr where
  | InvalidCharacter
deriving DecidableEq, Repr

/-- Translated from `impl ToByte for Wind` in `src/src/lib.rs`. -/
def Wind.to_byte : Wind → Nat
  | .South => 0x0C
  | .East => 0x1C
  | .North => 0x2C
  | .West => 0x3C

/-- Translated from `impl ToByte for Dragon` in `src/src/lib.rs`. -/
def Dragon.to_byte : Dragon → Nat
  | .White => 0x0D
  | .Red => 0x1D
  | .Green => 0x2D

/-- Translated from `impl ToByte for Suit` in `src/src/lib.rs`.
Rust `0x10 | n & 0xF` parses as `0x10 | (n & 0xF)`. -/
def Suit.to_byte : Suit → Nat
  | .Dots n => 0x10 ||| (n &&& 0xF)
  | .Bamboo n => 0x20 ||| (n &&& 0xF)
  | .Characters n => 0x30 ||| (n &&& 0xF)
  | .Wind w => w.to_byte
  | .Dragon d => d.to_byte

/-- Modelled from the spec: the repository references a `lookup` module
(`ALPHABET` and `INDEX`) whose source file is not present under `src/`.
The spec fixes `ALPHABET` as an ordered sequence of 64 distinct printable
ASCII characters: uppercase A to Z, lowercase a to z, digits 0 to 9, then
the plus sign and the slash, i.e. the standard Base64 alphabet, indexed by
code value 0 to 63.  Entries are the ASCII byte values of those
characters. -/
def ALPHABET : List Nat :=
  [65, 66, 67, 68, 69, 70, 71, 72, 73, 74, 75, 76, 77,
   78, 79, 80, 81, 82, 83, 84, 85, 86, 87, 88, 89, 90,
   97, 98, 99, 100, 101, 102, 103, 104, 105, 106, 107, 108, 109,
   110, 111, 112, 113, 114, 115, 116, 117, 118, 119, 120, 121, 122,
   48, 49, 50, 51, 52, 53, 54, 55, 56, 57, 43, 47]

/-- Modelled from the spec: position of a byte in the 64-symbol alphabet,
or `none` for a byte outside it (part of the missing `lookup` module's
reverse index). -/
def charIndex (b : Nat) : Option Nat :=
  ALPHABET.findIdx? (fun a => a == b)

/-- Modelled from the spec: the tile assigned to a 6-bit code by the fixed
code-space layout of the spec's data model (part of the missing `lookup`
module's reverse index).  Codes `0x10` to `0x1A` are Dots ranks 0 to 0xA
(0xA being the red five), likewise `0x20` to `0x2A` for Bamboo and `0x30`
to `0x3A` for Characters; `0x0C, 0x1C, 0x2C, 0x3C` are the Winds South,
East, North, West; `0x0D, 0x1D, 0x2D` are the Dragons White, Red, Green.
All other codes carry no tile. -/
def tileOfCode (c : Nat) : Option Suit :=
  match c % 16, c / 16 with
  | 12, 0 => some (.Wind .South)
  | 12, 1 => some (.Wind .East)
  | 12, 2 => some (.Wind .North)
  | 12, 3 => some (.Wind .West)
  | 13, 0 => some (.Dragon .White)
  | 13, 1 => some (.Dragon .Red)
  | 13, 2 => some (.Dragon .Green)
  | lo, 1 => if lo ≤ 0xA then some (.Dots lo) else none
  | lo, 2 => if lo ≤ 0xA then some (.Bamboo lo) else none
  | lo, 3 => if lo ≤ 0xA then some (.Characters lo) else none
  | _, _ => none

/-- Modelled from the spec: the 256-entry reverse table `INDEX` of the
missing `lookup` module, mapping a byte to the tile it denotes: bytes in
the 64-symbol alphabet map through their 6-bit code to the tile that code
carries in the fixed layout, every other byte maps to no tile. -/
def INDEX (b : Nat) : Option Suit :=
  (charIndex b).bind tileOfCode

/-- The forward table lookup `ALPHABET[c]` of `Suit::to_string`; out-of-range
indices (which cause a panic in Rust) default to 0 here and are proved
unreachable below. -/
def alphabetByte (c : Nat) : Nat :=
  ALPHABET.getD c 0

/-- Translated from `Suit::to_string` in `src/src/lib.rs`: map each tile of
the hand to the alphabet character of its byte code.  The produced string
is modelled as its list of byte values. -/
def Suit.to_string (hand : List Suit) : List Nat :=
  hand.map (fun tile => alphabetByte tile.to_byte)

/-- Translated from `Suit::from_string` in `src/src/lib.rs`: look each byte
up in `INDEX`, collecting the tiles and short-circuiting to
`DecodeErr::InvalidCharacter` at the first byte with no entry (the
semantics of mapping to `Result` and collecting in Rust). -/
def Suit.from_string : List Nat → Except DecodeErr (List Suit)
  | [] => .ok []
  | b :: rest =>
    match INDEX b with
    | some v => (Suit.from_string rest).map (fun tiles => v :: tiles)
    | none => .error .InvalidCharacter

/-- The 37-tile enumeration of the library's tests (`get_all_tiles` in
`src/src/lib.rs`): the three numbered suits with ranks 0 through 9, the
four winds and the three dragons, in that order. -/
def allTiles : List Suit :=
  ((List.range 10).map Suit.Dots) ++
  ((List.range 10).map Suit.Bamboo) ++
  ((List.range 10).map Suit.Characters) ++
  [.Wind .South, .Wind .East, .Wind .North, .Wind .West] ++
  [.Dragon .White, .Dragon .Red, .Dragon .Green]

/-- A tile of the spec's data model: a numbered suit carries a rank at most
`0xA` (ranks 0 to 9 plus the red five marker), honours are unrestricted.
Ranks above `0xA` are, in the spec's words, a programming error with an
undefined (aliased) mapping. -/
def validTile : Suit → Bool
  | .Dots n => n ≤ RED_FIVE
  | .Bamboo n => n ≤ RED_FIVE
  | .Characters n => n ≤ RED_FIVE
  | .Wind _ => true
  | .Dragon _ => true

/-- A hand all of whose tiles are constructible tiles of the spec. -/
def validHand (hand : List Suit) : Bool :=
  hand.all validTile

deriving instance DecidableEq for Except

/-- The 14-tile hand of the library's tests (`deserializes_hand_correctly`
and `serializes_hand_correctly` in `src/src/lib.rs`). -/
def scenarioHand : List Suit :=
  [.Characters 2, .Characters 3, .Characters 4, .Characters 5,
   .Characters 6, .Characters 7,
   .Dots 4, .Dots 5, .Dots 6, .Dots 7, .Dots 7,
   .Bamboo 4, .Bamboo 5, .Bamboo 6]

/-- The byte values of the test vector string used in the library's tests. -/
def scenarioBytes : List Nat :=
  ("yz0123UVWXXklm".toList).map Char.toNat

/-! ## Helper lemmas shared between the claim theorems -/

/-- Every tile's byte code stays within the 6-bit space. -/
theorem to_byte_le (t : Suit) : t.to_byte ≤ 0x3F := by
  have key : ∀ m : Nat, m < 16 → (0x10 ||| m ≤ 0x3F) ∧ (0x20 ||| m ≤ 0x3F) ∧
      (0x30 ||| m ≤ 0x3F) := by decide
  cases t with
  | Dots n =>
    have h : n &&& 0xF < 16 := Nat.lt_succ_of_le Nat.and_le_right
    exact (key _ h).1
  | Bamboo n =>
    have h : n &&& 0xF < 16 := Nat.lt_succ_of_le Nat.and_le_right
    exact (key _ h).2.1
  | Characters n =>
    have h : n &&& 0xF < 16 := Nat.lt_succ_of_le Nat.and_le_right
    exact (key _ h).2.2
  | Wind w => cases w <;> decide
  | Dragon d => cases d <;> decide

/-- Every entry of the alphabet produced for a code below 64 is plain
ASCII. -/
theorem alphabet_byte_ascii : ∀ c : Nat, c < 64 → alphabetByte c < 128 := by
  decide

/-- Decoding inverts encoding on each constructible tile. -/
theorem index_alphabet_to_byte (t : Suit) (h : validTile t = true) :
    INDEX (alphabetByte t.to_byte) = some t := by
  cases t with
  | Dots n =>
    have hn : n < 11 := Nat.lt_succ_of_le (by simpa [validTile, RED_FIVE] using h)
    have key : ∀ m : Nat, m < 11 →
        INDEX (alphabetByte (Suit.to_byte (Suit.Dots m))) = some (Suit.Dots m) := by decide
    exact key n hn
  | Bamboo n =>
    have hn : n < 11 := Nat.lt_succ_of_le (by simpa [validTile, RED_FIVE] using h)
    have key : ∀ m : Nat, m < 11 →
        INDEX (alphabetByte (Suit.to_byte (Suit.Bamboo m))) = some (Suit.Bamboo m) := by decide
    exact key n hn
  | Characters n =>
    have hn : n < 11 := Nat.lt_succ_of_le (by simpa [validTile, RED_FIVE] using h)
    have key : ∀ m : Nat, m < 11 →
        INDEX (alphabetByte (Suit.to_byte (Suit.Characters m))) = some (Suit.Characters m) := by decide
    exact key n hn
  | Wind w => cases w <;> decide
  | Dragon d => cases d <;> decide

/-- Re-encoding inverts decoding on each byte below 256. -/
theorem alphabet_to_byte_index (b : Nat) (hb : b < 256) (t : Suit)
    (h : INDEX b = some t) : alphabetByte t.to_byte = b := by
  have key : ∀ c : Nat, c < 256 →
      (INDEX c).all (fun v => alphabetByte (Suit.to_byte v) == c) = true := by decide
  have := key b hb
  rw [h, Option.all_some] at this
  exact beq_iff_eq.mp this

/-! ## Claim theorems -/

/-- C1: for every tile sequence T of constructible tiles (numbered ranks at
most 0xA, as the spec's data model defines tiles), decoding the encoding of
T succeeds and returns exactly T, element by element and in order:
`Suit.from_string (Suit.to_string T) = Except.ok T`. -/
theorem from_string_to_string_roundtrip (T : List Suit) (h : validHand T = true) :
    Suit.from_string (Suit.to_string T) = .ok T := by
  induction T with
  | nil => rfl
  | cons t rest ih =>
    have hv : validTile t = true ∧ validHand rest = true := by
      simpa [validHand] using h
    have hstep : Suit.from_string (Suit.to_string (t :: rest)) =
        (Suit.from_string (Suit.to_string rest)).map (fun tiles => t :: tiles) := by
      have hcons : Suit.to_string (t :: rest) =
          alphabetByte t.to_byte :: Suit.to_string rest := rfl
      rw [hcons]
      simp only [Suit.from_string, index_alphabet_to_byte t hv.1]
    rw [hstep, ih hv.2]
    rfl

/-- Witness for C1 at the one-tile hand containing Dots 5. -/
theorem from_string_to_string_roundtrip_witness :
    validHand [Suit.Dots 5] = true ∧
      Suit.from_string (Suit.to_string [Suit.Dots 5]) = .ok [Suit.Dots 5] :=
  ⟨by decide, from_string_to_string_roundtrip [Suit.Dots 5] (by decide)⟩

/-- C2: over the full enumerated set of 37 constructible tiles, every byte
code is at most 0x3F and no two distinct tiles of the set share a code. -/
theorem to_byte_bounded_injective_on_allTiles :
    (∀ b ∈ allTiles.map Suit.to_byte, b ≤ 0x3F) ∧
      (allTiles.map Suit.to_byte).Nodup := by decide

/-- Witness for C2 at the code of Dots 0, which is 0x10. -/
theorem to_byte_bounded_injective_on_allTiles_witness : (0x10 : Nat) ≤ 0x3F :=
  to_byte_bounded_injective_on_allTiles.1 0x10 (by decide)

/-- C3: the encoded string has one byte per tile, its i-th byte is the
alphabet entry of the i-th tile's code, and the empty hand encodes to the
empty string. -/
theorem to_string_pointwise (T : List Suit) :
    (Suit.to_string T).length = T.length ∧
      (∀ i : Nat, i < T.length →
        (Suit.to_string T).getD i 0 =
          alphabetByte ((T.getD i (Suit.Dots 0)).to_byte)) ∧
      Suit.to_string [] = [] := by
  refine ⟨List.length_map _ _, ?_, rfl⟩
  intro i hi
  have hT : T[i]? = some (T.get ⟨i, hi⟩) := List.getElem?_eq_getElem hi
  simp [Suit.to_string, List.getD_eq_getElem?_getD, List.getElem?_map, hT]

/-- Witness for C3 at the one-tile hand containing Bamboo 4 and index 0. -/
theorem to_string_pointwise_witness :
    (Suit.to_string [Suit.Bamboo 4]).getD 0 0 =
      alphabetByte (([Suit.Bamboo 4].getD 0 (Suit.Dots 0)).to_byte) :=
  (to_string_pointwise [Suit.Bamboo 4]).2.1 0 (by decide)

/-- C4 counterexample: the byte 65 (the character A) lies inside the
64-symbol alphabet, yet decoding it fails, because its 6-bit code 0x00
carries no tile in the fixed layout; this refutes the claim's reading that
an error occurs only for bytes outside the alphabet. -/
theorem from_string_err_inside_alphabet :
    Suit.from_string [65] = .error .InvalidCharacter ∧ 65 ∈ ALPHABET := by
  decide

/-- C4 (amended): `Suit.from_string` returns `DecodeErr.InvalidCharacter`
if and only if some byte of the input has no entry in the reverse table
(which is the case for every byte outside the 64-symbol alphabet, and also
for the alphabet characters whose 6-bit codes carry no tile, such as A);
on an error no partial tile sequence is returned, and otherwise it returns
`Except.ok` with exactly one tile per input byte, the empty string decoding
to the empty hand. -/
theorem from_string_err_iff_no_entry (s : List Nat) :
    (Suit.from_string s = .error .InvalidCharacter ↔ ∃ b ∈ s, INDEX b = none) ∧
      (∀ T, Suit.from_string s = .ok T → T.length = s.length) ∧
      Suit.from_string [] = .ok ([] : List Suit) := by
  induction s with
  | nil =>
    refine ⟨?_, ?_, rfl⟩
    · simp [Suit.from_string]
    · intro T hT
      simp only [Suit.from_string] at hT
      cases hT
      rfl
  | cons b rest ih =>
    refine ⟨?_, ?_, rfl⟩
    · cases hI : INDEX b with
      | none =>
        constructor
        · intro _
          exact ⟨b, List.mem_cons_self b rest, hI⟩
        · intro _
          simp [Suit.from_string, hI]
      | some v =>
        simp only [Suit.from_string, hI]
        constructor
        · intro hE
          cases hR : Suit.from_string rest with
          | error e =>
            cases e
            obtain ⟨c, hc, hnone⟩ := ih.1.mp hR
            exact ⟨c, List.mem_cons_of_mem b hc, hnone⟩
          | ok tiles =>
            rw [hR] at hE
            simp [Except.map] at hE
        · rintro ⟨c, hc, hnone⟩
          rcases List.mem_cons.mp hc with rfl | hc
          · rw [hI] at hnone
            cases hnone
          · rw [ih.1.mpr ⟨c, hc, hnone⟩]
            rfl
    · intro T hT
      cases hI : INDEX b with
      | none =>
        simp only [Suit.from_string, hI] at hT
        cases hT
      | some v =>
        simp only [Suit.from_string, hI] at hT
        cases hR : Suit.from_string rest with
        | error e =>
          rw [hR] at hT
          simp [Except.map] at hT
        | ok tiles =>
          rw [hR] at hT
          simp only [Except.map] at hT
          cases hT
          simp [ih.2.1 tiles hR]

/-- Witness for C4 at the one-byte string containing the exclamation
mark. -/
theorem from_string_err_iff_no_entry_witness :
    Suit.from_string [33] = .error .InvalidCharacter :=
  (from_string_err_iff_no_entry [33]).1.mpr ⟨33, by decide, by decide⟩

/-- C5: for every rank n the numbered-suit codes are the suit base or-ed
with the low four bits of the rank, so ranks alias modulo the mask; in
particular rank 0x1A yields the same code as rank 0xA. -/
theorem to_byte_rank_mask (n : Nat) :
    Suit.to_byte (.Dots n) = 0x10 ||| (n &&& 0xF) ∧
      Suit.to_byte (.Bamboo n) = 0x20 ||| (n &&& 0xF) ∧
      Suit.to_byte (.Characters n) = 0x30 ||| (n &&& 0xF) ∧
      Suit.to_byte (.Dots n) = Suit.to_byte (.Dots (n &&& 0xF)) ∧
      Suit.to_byte (.Dots 0x1A) = Suit.to_byte (.Dots 0xA) := by
  refine ⟨rfl, rfl, rfl, ?_, by decide⟩
  simp [Suit.to_byte, Nat.and_assoc]

/-- C6: the honor tiles and the Dots red five carry the fixed constants of
the code-space layout. -/
theorem honor_and_red_five_codes :
    Suit.to_byte (.Wind .South) = 0x0C ∧ Suit.to_byte (.Wind .East) = 0x1C ∧
      Suit.to_byte (.Wind .North) = 0x2C ∧ Suit.to_byte (.Wind .West) = 0x3C ∧
      Suit.to_byte (.Dragon .White) = 0x0D ∧ Suit.to_byte (.Dragon .Red) = 0x1D ∧
      Suit.to_byte (.Dragon .Green) = 0x2D ∧ Suit.to_byte (.Dots 10) = 0x1A := by
  decide

/-- C7: the concrete 14-tile scenario hand encodes to exactly the bytes of
the string yz0123UVWXXklm, and that string decodes back to exactly the
scenario hand, in order. -/
theorem scenario_hand_roundtrip :
    Suit.to_string scenarioHand = scenarioBytes ∧
      Suit.from_string scenarioBytes = .ok scenarioHand := by
  decide

/-- C8: encoding a tile to its byte always succeeds (the function is total
by construction) and the result lies in the 6-bit space for every
constructible value, numbered suits with arbitrary ranks included. -/
theorem to_byte_total_in_code_space (t : Suit) : Suit.to_byte t ≤ 0x3F :=
  to_byte_le t

/-- C9: encoding never panics: the alphabet has 64 entries, every tile's
byte code is a valid index into it, and every produced byte is single-byte
ASCII, so the UTF-8 conversion in `Suit::to_string` cannot fail. -/
theorem to_string_index_safe :
    ALPHABET.length = 64 ∧
      (∀ t : Suit, t.to_byte < ALPHABET.length) ∧
      (∀ T : List Suit, ∀ b ∈ Suit.to_string T, b < 128) := by
  refine ⟨rfl, ?_, ?_⟩
  · intro t
    have h := to_byte_le t
    show t.to_byte < 64
    omega
  · intro T b hb
    obtain ⟨t, -, rfl⟩ := List.mem_map.mp hb
    exact alphabet_byte_ascii _ (Nat.lt_succ_of_le (to_byte_le t))

/-- Witness for C9: the byte produced for Wind South is 77, an ASCII
value. -/
theorem to_string_index_safe_witness : (77 : Nat) < 128 :=
  to_string_index_safe.2.2 [Suit.Wind Wind.South] 77 (by decide)

/-- C10: encoding is the right inverse of decoding: every byte string that
decodes successfully re-encodes to exactly the original string. -/
theorem to_string_from_string_right_inverse (s : List Nat)
    (hs : ∀ b ∈ s, b < 256) (T : List Suit)
    (h : Suit.from_string s = .ok T) : Suit.to_string T = s := by
  induction s generalizing T with
  | nil =>
    simp only [Suit.from_string] at h
    cases h
    rfl
  | cons b rest ih =>
    cases hI : INDEX b with
    | none =>
      simp only [Suit.from_string, hI] at h
      cases h
    | some v =>
      simp only [Suit.from_string, hI] at h
      cases hR : Suit.from_string rest with
      | error e =>
        rw [hR] at h
        simp [Except.map] at h
      | ok tiles =>
        rw [hR] at h
        simp only [Except.map] at h
        cases h
        have hb : b < 256 := hs b (List.mem_cons_self b rest)
        have hrest : ∀ c ∈ rest, c < 256 :=
          fun c hc => hs c (List.mem_cons_of_mem b hc)
        have hcons : Suit.to_string (v :: tiles) =
            alphabetByte v.to_byte :: Suit.to_string tiles := rfl
        rw [hcons, ih hrest tiles hR, alphabet_to_byte_index b hb v hI]

/-- Witness for C10 at the one-byte string containing the character c,
which decodes to Wind East. -/
theorem to_string_from_string_right_inverse_witness :
    Suit.to_string [Suit.Wind Wind.East] = [99] :=
  to_string_from_string_right_inverse [99] (by decide) [Suit.Wind Wind.East]
    (by decide)

end Mahjong
